import Mathlib

/-!
Verification of the documentation link-resolution subsystem of togglebot
(`src/handler/user/doc.rs`): the `find` entry point, its in-memory LRU link
cache (`lru_time_cache::LruCache::with_capacity(500)`), the on-disk per-crate
index cache (`index_from_file` / `save_index`) and the remote fetch pipeline
(`index_from_remote`).

The embedding is shallow: the filesystem, the network and the external
`docsearch` collaborator are captured as an explicit environment holding the
results the source code would observe through each call it makes, and `find`
is translated branch for branch from the source.
-/

namespace DocFind

/-- Model of `lru_time_cache::LruCache<String, String>`: a capacity-bounded
least-recently-used cache. `entries` is kept in recency order, least recently
touched first, most recently touched last, mirroring the crate's deque of
keys (here each key is paired with its value). -/
structure LruCache where
  capacity : Nat
  entries : List (String × String)
deriving DecidableEq

/-- Model of `LruCache::with_capacity`: an empty cache with the given capacity
and no time-to-live, so entries never expire by age. -/
def LruCache.withCapacity (n : Nat) : LruCache := ⟨n, []⟩

/-- Eviction loop of `LruCache::insert` for a not-yet-present key: while the
cache is at (or above) capacity, pop the least-recently-used front entry. -/
def LruCache.evict (cap : Nat) : List (String × String) → List (String × String)
  | [] => []
  | x :: xs => if cap ≤ (x :: xs).length then LruCache.evict cap xs else x :: xs

/-- Model of `LruCache::get`: on a hit the entry is moved to the
most-recently-used position and its value is returned; on a miss the cache is
unchanged (there is no time-to-live, hence no expiry pass). -/
def LruCache.get (c : LruCache) (k : String) : Option String × LruCache :=
  match c.entries.find? (fun e => e.fst == k) with
  | none => (none, c)
  | some e => (some e.snd, ⟨c.capacity, (c.entries.filter (fun e => e.fst != k)) ++ [e]⟩)

/-- Model of `LruCache::insert`: an already-present key is updated and moved to
the most-recently-used position; a new key first evicts least-recently-used
entries while the cache is full, then is appended at the back. -/
def LruCache.insert (c : LruCache) (k v : String) : LruCache :=
  match c.entries.find? (fun e => e.fst == k) with
  | some _ => ⟨c.capacity, (c.entries.filter (fun e => e.fst != k)) ++ [(k, v)]⟩
  | none => ⟨c.capacity, (LruCache.evict c.capacity c.entries) ++ [(k, v)]⟩

/-- Initial value of the `LINK_CACHE` static: `LruCache::with_capacity(500)`. -/
def LINK_CACHE : LruCache := LruCache.withCapacity 500

/-- Model of `docsearch::SimplePath` (external collaborator): the validated
original string (`into_inner`, which is also its `Display` form) plus the
`crate_name()` accessor. -/
structure SimplePath where
  raw : String
  crateName : String
deriving DecidableEq

/-- Model of `docsearch::Index`: only its `find_link` lookup is observable. -/
structure Index where
  findLink : SimplePath → Option String

/-- Model of one on-disk index file as observed by `index_from_file`. -/
structure DiskFile where
  /-- Result of `meta.modified()?.elapsed()?`, in nanoseconds; `Except.error`
  models a failing elapsed-time computation (modification time in the
  future). -/
  elapsed : Except Unit Nat
  /-- Result of `serde_json::from_slice` on the file bytes: `none` models a
  corrupt, non-deserializable file. -/
  content : Option Index

/-- Failure cases of `index_from_file` (all a single `anyhow::Error` in the
source; `find` never inspects which case occurred). -/
inductive LoadError
  | metadata
  | modifiedTime
  | outdated
  | deserialize
deriving DecidableEq

/-- Staleness threshold `Duration::from_secs(60 * 60 * 24 * 3)`, here in
nanoseconds. -/
def staleNanos : Nat := 60 * 60 * 24 * 3 * 1000000000

/-- Environment of one `find` call: the external docsearch collaborator, the
filesystem and the network, each captured as the results the source code
observes through the calls it makes. -/
structure Env where
  /-- Result of `path.parse::<SimplePath>()`; the error is its `Display`
  rendering interpolated into the invalid-path message. -/
  parse : String → Except String SimplePath
  /-- Disk index file per crate name (the file at `index_file_name`), `none`
  when `fs::metadata` fails because no such file exists. -/
  disk : String → Option DiskFile
  /-- Url of `docsearch::start_search(crate_name, Version::Latest)`. -/
  startUrl : String → String
  /-- Result of `download_url` for each url. -/
  download : String → Except String String
  /-- Result of `state.find_index(&content)`: the follow-up index url. -/
  findIndex : String → Except String String
  /-- Result of `state.transform_index(&content)`. -/
  transformIndex : String → Except String Index
  /-- Whether `save_index` (serialize, `create_dir_all`, `write`) succeeds. -/
  saveOk : Bool

/-- Model of `index_from_file`: metadata lookup, modification-time staleness
check (elapsed strictly greater than three days bails with "file outdated"),
then read and deserialize. -/
def index_from_file : Option DiskFile → Except LoadError Index
  | none => .error .metadata
  | some f =>
    match f.elapsed with
    | .error _ => .error .modifiedTime
    | .ok e =>
      if staleNanos < e then .error .outdated
      else
        match f.content with
        | none => .error .deserialize
        | some i => .ok i

/-- Model of `save_index`: whether serializing and writing the index file
succeeds is determined by the environment. -/
def save_index (env : Env) : Except Unit Unit :=
  if env.saveOk then .ok () else .error ()

/-- Model of `index_from_remote`: two downloads with the docsearch state
machine in between, then a best-effort `save_index` whose failure is only
logged (`warn!`) and never propagated. -/
def index_from_remote (env : Env) (p : SimplePath) : Except String Index :=
  match env.download (env.startUrl p.crateName) with
  | .error e => .error e
  | .ok content =>
    match env.findIndex content with
    | .error e => .error e
    | .ok url =>
      match env.download url with
      | .error e => .error e
      | .ok content2 =>
        match env.transformIndex content2 with
        | .error e => .error e
        | .ok index =>
          match save_index env with
          | .error _ => .ok index
          | .ok _ => .ok index

/-- Branch of `find` that produced its return value. -/
inductive Outcome
  | memHit
  | invalidPath
  | linkFound
  | notFound
  | fetchError
deriving DecidableEq

deriving instance DecidableEq for Except

/-- Observable result of one `find` call: the returned `Result<String>`, the
state of `LINK_CACHE` afterwards, which branch returned, and which of the
path parser, the disk store and the remote fetcher were invoked. -/
structure FindOutcome where
  result : Except String String
  cache : LruCache
  outcome : Outcome
  parserInvoked : Bool
  diskInvoked : Bool
  remoteInvoked : Bool
deriving DecidableEq

/-- Tail of `find` once an index is at hand: `index.find_link(&path)`; on a
hit the link is inserted into `LINK_CACHE` under `path.into_inner()` and
returned, on a miss the doesn't-exist message is returned. -/
def finishLookup (cache : LruCache) (p : SimplePath) (i : Index)
    (diskI remoteI : Bool) : FindOutcome :=
  match i.findLink p with
  | some link =>
    ⟨.ok link, cache.insert p.raw link, .linkFound, true, diskI, remoteI⟩
  | none =>
    ⟨.ok ("Item `" ++ p.raw ++ "` doesn't exist"), cache, .notFound, true, diskI, remoteI⟩

/-- Stage of `find` after `index_from_file` failed: `index_from_remote` with
the `?` operator, so a remote failure is returned as an error. -/
def afterRemote (cache : LruCache) (p : SimplePath) :
    Except String Index → FindOutcome
  | .error e => ⟨.error e, cache, .fetchError, true, true, true⟩
  | .ok i => finishLookup cache p i true true

/-- Stage of `find` matching on `index_from_file`: a file-cache hit uses the
loaded index, any file-cache error falls back to the remote fetch. -/
def afterFile (env : Env) (cache : LruCache) (p : SimplePath) :
    Except LoadError Index → FindOutcome
  | .ok i => finishLookup cache p i true false
  | .error _ => afterRemote cache p (index_from_remote env p)

/-- Stage of `find` matching on `path.parse::<SimplePath>()`: a parse failure
returns the invalid-path message as an `Ok` value. -/
def afterParse (env : Env) (cache : LruCache) (path : String) :
    Except String SimplePath → FindOutcome
  | .error e =>
    ⟨.ok ("The path `" ++ path ++ "` is invalid: " ++ e), cache, .invalidPath, true, false, false⟩
  | .ok p => afterFile env cache p (index_from_file (env.disk p.crateName))

/-- Stage of `find` matching on the `LINK_CACHE` lookup: a memory-cache hit
returns the cached link immediately. -/
def afterGet (env : Env) (path : String) :
    Option String × LruCache → FindOutcome
  | (some link, cache) => ⟨.ok link, cache, .memHit, false, false, false⟩
  | (none, cache) => afterParse env cache path (env.parse path)

/-- Model of `find`: memory cache, path parse, disk cache, remote fetch, link
lookup, in the order of the source. -/
def find (env : Env) (cache : LruCache) (path : String) : FindOutcome :=
  afterGet env path (cache.get path)

/-- Combined index acquisition inside `find`: the disk tier with the remote
tier as fallback for any disk-tier failure. -/
def obtainIndex (env : Env) (p : SimplePath) : Except String Index :=
  match index_from_file (env.disk p.crateName) with
  | .ok i => .ok i
  | .error _ => index_from_remote env p

/-! Helper lemmas about the LRU cache model. -/

theorem prod_eq_of_fst {α β : Type} {p : α × β} {a : α} (h : p.fst = a) :
    p = (a, p.snd) := by
  cases p
  cases h
  rfl

theorem find?_filter_ne (l : List (String × String)) (k : String) :
    (l.filter (fun e => e.fst != k)).find? (fun e => e.fst == k) = none := by
  rw [List.find?_eq_none]
  intro x hx
  have hk := (List.mem_filter.mp hx).2
  simp only [bne_iff_ne, ne_eq] at hk
  simp [hk]

theorem filter_ne_of_find?_none {l : List (String × String)} {k : String}
    (h : l.find? (fun e => e.fst == k) = none) :
    l.filter (fun e => e.fst != k) = l := by
  rw [List.filter_eq_self]
  intro x hx
  have := List.find?_eq_none.mp h x hx
  simpa [bne_iff_ne] using this

theorem length_filter_lt {l : List (String × String)} {k : String} {e : String × String}
    (h : l.find? (fun e => e.fst == k) = some e) :
    (l.filter (fun e => e.fst != k)).length < l.length := by
  induction l with
  | nil => cases h
  | cons x xs ih =>
    by_cases hx : (x.fst == k) = true
    · rw [List.filter_cons_of_neg (by simp [bne, hx])]
      exact Nat.lt_succ_of_le (List.length_filter_le _ xs)
    · have hxf : (x.fst == k) = false := by simpa using hx
      rw [List.find?_cons, hxf] at h
      rw [List.filter_cons_of_pos (by simp [bne, hxf])]
      exact Nat.succ_lt_succ (ih h)

theorem evict_mem {cap : Nat} {l : List (String × String)} {x : String × String}
    (h : x ∈ LruCache.evict cap l) : x ∈ l := by
  induction l with
  | nil => simp [LruCache.evict] at h
  | cons y ys ih =>
    rw [LruCache.evict] at h
    by_cases hc : cap ≤ (y :: ys).length
    · rw [if_pos hc] at h
      exact List.mem_cons_of_mem y (ih h)
    · rwa [if_neg hc] at h

theorem evict_length_lt {cap : Nat} (hcap : 1 ≤ cap) (l : List (String × String)) :
    (LruCache.evict cap l).length < cap := by
  induction l with
  | nil => simpa [LruCache.evict] using hcap
  | cons y ys ih =>
    rw [LruCache.evict]
    by_cases hc : cap ≤ (y :: ys).length
    · rwa [if_pos hc]
    · rw [if_neg hc]
      exact Nat.lt_of_not_le hc

theorem evict_of_lt {cap : Nat} {l : List (String × String)} (h : l.length < cap) :
    LruCache.evict cap l = l := by
  cases l with
  | nil => rfl
  | cons y ys =>
    rw [LruCache.evict, if_neg (Nat.not_le_of_lt h)]

theorem evict_eq_tail {cap : Nat} {l : List (String × String)}
    (h : l.length = cap) : LruCache.evict cap l = l.tail := by
  cases l with
  | nil => rfl
  | cons y ys =>
    rw [LruCache.evict, if_pos (Nat.le_of_eq h.symm)]
    have hlt : ys.length < cap := by
      rw [← h]
      exact Nat.lt_succ_self _
    rw [evict_of_lt hlt]
    rfl

theorem get_eq_miss {c : LruCache} {k : String}
    (h : c.entries.find? (fun e => e.fst == k) = none) : c.get k = (none, c) := by
  unfold LruCache.get
  rw [h]

theorem get_eq_hit {c : LruCache} {k : String} {e : String × String}
    (h : c.entries.find? (fun e => e.fst == k) = some e) :
    c.get k = (some e.snd, ⟨c.capacity, (c.entries.filter (fun e => e.fst != k)) ++ [e]⟩) := by
  unfold LruCache.get
  rw [h]

theorem insert_eq_update {c : LruCache} {k v : String} {e : String × String}
    (h : c.entries.find? (fun e => e.fst == k) = some e) :
    c.insert k v = ⟨c.capacity, (c.entries.filter (fun e => e.fst != k)) ++ [(k, v)]⟩ := by
  unfold LruCache.insert
  rw [h]

theorem insert_eq_new {c : LruCache} {k v : String}
    (h : c.entries.find? (fun e => e.fst == k) = none) :
    c.insert k v = ⟨c.capacity, (LruCache.evict c.capacity c.entries) ++ [(k, v)]⟩ := by
  unfold LruCache.insert
  rw [h]

theorem get_snd_of_fst_none {c : LruCache} {k : String}
    (h : (c.get k).fst = none) : (c.get k).snd = c := by
  unfold LruCache.get at h ⊢
  cases hf : c.entries.find? (fun e => e.fst == k) with
  | none => rfl
  | some e => rw [hf] at h; simp at h

theorem get_pair_of_fst_none {c : LruCache} {k : String}
    (h : (c.get k).fst = none) : c.get k = (none, c) := by
  have hp := prod_eq_of_fst h
  rwa [get_snd_of_fst_none h] at hp

theorem get_fst_again {c : LruCache} {k : String} {v : String}
    (h : (c.get k).fst = some v) : (((c.get k).snd).get k).fst = some v := by
  unfold LruCache.get at h ⊢
  cases hf : c.entries.find? (fun e => e.fst == k) with
  | none => rw [hf] at h; simp at h
  | some e =>
    rw [hf] at h
    have hpe : (e.fst == k) = true := by
      have h2 := List.find?_some hf
      simpa using h2
    simp only at h
    rw [List.find?_append, find?_filter_ne]
    have he : List.find? (fun e => e.fst == k) [e] = some e := by
      simp [List.find?_cons, hpe]
    rw [he]
    simpa using h

theorem get_fst_insert_self (c : LruCache) (k v : String) :
    ((c.insert k v).get k).fst = some v := by
  unfold LruCache.insert LruCache.get
  have hk : List.find? (fun e => e.fst == k) [(k, v)] = some (k, v) := by
    simp [List.find?_cons]
  cases hf : c.entries.find? (fun e => e.fst == k) with
  | some e =>
    rw [List.find?_append, find?_filter_ne, hk]
    simp
  | none =>
    have hev : (LruCache.evict c.capacity c.entries).find? (fun e => e.fst == k) = none := by
      rw [List.find?_eq_none]
      intro x hx
      exact List.find?_eq_none.mp hf x (evict_mem hx)
    rw [List.find?_append, hev, hk]
    simp

theorem insert_entries_shape (c : LruCache) (k v : String) :
    ∃ pre, (c.insert k v).entries = pre ++ [(k, v)] ∧
      pre.find? (fun e => e.fst == k) = none := by
  cases hf : c.entries.find? (fun e => e.fst == k) with
  | some e =>
    rw [insert_eq_update hf]
    exact ⟨_, rfl, find?_filter_ne _ _⟩
  | none =>
    rw [insert_eq_new hf]
    refine ⟨_, rfl, ?_⟩
    rw [List.find?_eq_none]
    intro x hx
    exact List.find?_eq_none.mp hf x (evict_mem hx)

theorem insert_capacity (c : LruCache) (k v : String) :
    (c.insert k v).capacity = c.capacity := by
  cases hf : c.entries.find? (fun e => e.fst == k) with
  | some e => rw [insert_eq_update hf]
  | none => rw [insert_eq_new hf]

theorem insert_of_shape {d : LruCache} {pre : List (String × String)} {k v : String}
    (hsh : d.entries = pre ++ [(k, v)])
    (hnone : pre.find? (fun e => e.fst == k) = none) :
    d.insert k v = d := by
  have hfind : d.entries.find? (fun e => e.fst == k) = some (k, v) := by
    rw [hsh, List.find?_append, hnone]
    simp [List.find?_cons]
  have hfilter : d.entries.filter (fun e => e.fst != k) = pre := by
    rw [hsh, List.filter_append, filter_ne_of_find?_none hnone]
    simp
  rw [insert_eq_update hfind, hfilter, ← hsh]

theorem insert_insert (c : LruCache) (k v : String) :
    (c.insert k v).insert k v = c.insert k v := by
  obtain ⟨pre, hsh, hnone⟩ := insert_entries_shape c k v
  exact insert_of_shape hsh hnone

theorem insert_length_le {c : LruCache} (k v : String) (hcap : 1 ≤ c.capacity)
    (h : c.entries.length ≤ c.capacity) :
    (c.insert k v).entries.length ≤ c.capacity := by
  cases hf : c.entries.find? (fun e => e.fst == k) with
  | some e =>
    rw [insert_eq_update hf]
    have hlt := length_filter_lt hf
    simp only [List.length_append, List.length_cons, List.length_nil]
    omega
  | none =>
    rw [insert_eq_new hf]
    have hlt := evict_length_lt hcap c.entries
    simp only [List.length_append, List.length_cons, List.length_nil]
    omega

theorem get_snd_length_le {c : LruCache} (k : String)
    (h : c.entries.length ≤ c.capacity) :
    ((c.get k).snd).entries.length ≤ c.capacity := by
  cases hf : c.entries.find? (fun e => e.fst == k) with
  | none =>
    rw [get_eq_miss hf]
    exact h
  | some e =>
    rw [get_eq_hit hf]
    have hlt := length_filter_lt hf
    simp only [List.length_append, List.length_cons, List.length_nil]
    omega

theorem insert_full_entries {c : LruCache} {k v : String}
    (hlen : c.entries.length = c.capacity)
    (hf : c.entries.find? (fun e => e.fst == k) = none) :
    (c.insert k v).entries = c.entries.tail ++ [(k, v)] := by
  rw [insert_eq_new hf, evict_eq_tail hlen]

/-! Helper lemmas about the stages of `find`. -/

theorem afterParse_error (env : Env) (c : LruCache) (path e : String) :
    afterParse env c path (.error e) =
      ⟨.ok ("The path `" ++ path ++ "` is invalid: " ++ e), c, .invalidPath, true, false, false⟩ :=
  rfl

theorem afterParse_ok (env : Env) (c : LruCache) (path : String) (p : SimplePath) :
    afterParse env c path (.ok p) =
      afterFile env c p (index_from_file (env.disk p.crateName)) :=
  rfl

theorem afterFile_ok (env : Env) (c : LruCache) (p : SimplePath) (i : Index) :
    afterFile env c p (.ok i) = finishLookup c p i true false :=
  rfl

theorem afterFile_error (env : Env) (c : LruCache) (p : SimplePath) (le : LoadError) :
    afterFile env c p (.error le) = afterRemote c p (index_from_remote env p) :=
  rfl

theorem afterRemote_error (c : LruCache) (p : SimplePath) (e : String) :
    afterRemote c p (.error e) = ⟨.error e, c, .fetchError, true, true, true⟩ :=
  rfl

theorem afterRemote_ok (c : LruCache) (p : SimplePath) (i : Index) :
    afterRemote c p (.ok i) = finishLookup c p i true true :=
  rfl

theorem finishLookup_eq_found {p : SimplePath} {i : Index} {link : String}
    (cache : LruCache) (diskI remoteI : Bool) (h : i.findLink p = some link) :
    finishLookup cache p i diskI remoteI =
      ⟨.ok link, cache.insert p.raw link, .linkFound, true, diskI, remoteI⟩ := by
  unfold finishLookup
  rw [h]

theorem finishLookup_eq_notFound {p : SimplePath} {i : Index}
    (cache : LruCache) (diskI remoteI : Bool) (h : i.findLink p = none) :
    finishLookup cache p i diskI remoteI =
      ⟨.ok ("Item `" ++ p.raw ++ "` doesn't exist"), cache, .notFound, true, diskI, remoteI⟩ := by
  unfold finishLookup
  rw [h]

theorem finishLookup_result_ok (cache : LruCache) (p : SimplePath) (i : Index)
    (diskI remoteI : Bool) : ∃ s, (finishLookup cache p i diskI remoteI).result = .ok s := by
  cases h : i.findLink p with
  | some link => rw [finishLookup_eq_found cache diskI remoteI h]; exact ⟨_, rfl⟩
  | none => rw [finishLookup_eq_notFound cache diskI remoteI h]; exact ⟨_, rfl⟩

theorem finishLookup_outcome_ne_memHit (cache : LruCache) (p : SimplePath) (i : Index)
    (diskI remoteI : Bool) : (finishLookup cache p i diskI remoteI).outcome ≠ Outcome.memHit := by
  cases h : i.findLink p with
  | some link => rw [finishLookup_eq_found cache diskI remoteI h]; simp
  | none => rw [finishLookup_eq_notFound cache diskI remoteI h]; simp

theorem finishLookup_remoteInvoked (cache : LruCache) (p : SimplePath) (i : Index)
    (diskI remoteI : Bool) : (finishLookup cache p i diskI remoteI).remoteInvoked = remoteI := by
  cases h : i.findLink p with
  | some link => rw [finishLookup_eq_found cache diskI remoteI h]
  | none => rw [finishLookup_eq_notFound cache diskI remoteI h]

theorem find_of_get_some {env : Env} {c : LruCache} {q link : String}
    (h : (c.get q).fst = some link) :
    find env c q = ⟨.ok link, (c.get q).snd, .memHit, false, false, false⟩ := by
  unfold find
  rw [prod_eq_of_fst h]
  rfl

theorem find_of_miss {env : Env} {c : LruCache} {q : String}
    (h : (c.get q).fst = none) :
    find env c q = afterParse env c q (env.parse q) := by
  unfold find
  rw [get_pair_of_fst_none h]
  rfl

theorem save_branch (r : Except Unit Unit) (i : Index) :
    (match r with
      | .error _ => (.ok i : Except String Index)
      | .ok _ => .ok i) = .ok i := by
  cases r <;> rfl

theorem index_from_remote_eq (env : Env) (p : SimplePath) :
    index_from_remote env p =
      match env.download (env.startUrl p.crateName) with
      | .error e => .error e
      | .ok content =>
        match env.findIndex content with
        | .error e => .error e
        | .ok url =>
          match env.download url with
          | .error e => .error e
          | .ok content2 =>
            match env.transformIndex content2 with
            | .error e => .error e
            | .ok index => .ok index := by
  unfold index_from_remote
  split
  · rfl
  · split
    · rfl
    · split
      · rfl
      · split
        · rfl
        · exact save_branch (save_index env) _

theorem index_from_remote_save (env : Env) (b : Bool) (p : SimplePath) :
    index_from_remote {env with saveOk := b} p = index_from_remote env p := by
  rw [index_from_remote_eq, index_from_remote_eq]

theorem find_save (env : Env) (b : Bool) (c : LruCache) (q : String) :
    find {env with saveOk := b} c q = find env c q := by
  cases hfst : (c.get q).fst with
  | some link => rw [find_of_get_some hfst, find_of_get_some hfst]
  | none =>
    rw [find_of_miss hfst, find_of_miss hfst]
    have hparse : ({env with saveOk := b}).parse = env.parse := rfl
    rw [hparse]
    cases hp : env.parse q with
    | error e => rfl
    | ok p =>
      rw [afterParse_ok, afterParse_ok]
      have hdisk : ({env with saveOk := b}).disk = env.disk := rfl
      rw [hdisk]
      cases hf : index_from_file (env.disk p.crateName) with
      | ok i => rfl
      | error le =>
        rw [afterFile_error, afterFile_error, index_from_remote_save]

theorem find_error_cache {env : Env} {c : LruCache} {q err : String}
    (h : (find env c q).result = .error err) : (find env c q).cache = c := by
  cases hfst : (c.get q).fst with
  | some link =>
    rw [find_of_get_some hfst] at h
    simp at h
  | none =>
    rw [find_of_miss hfst] at h ⊢
    cases hp : env.parse q with
    | error e =>
      rw [hp, afterParse_error] at h
      simp at h
    | ok p =>
      rw [hp, afterParse_ok] at h
      rw [afterParse_ok]
      cases hf : index_from_file (env.disk p.crateName) with
      | ok i =>
        rw [hf, afterFile_ok] at h
        obtain ⟨s, hs⟩ := finishLookup_result_ok c p i true false
        rw [hs] at h
        simp at h
      | error le =>
        rw [hf, afterFile_error] at h
        rw [afterFile_error]
        cases hr : index_from_remote env p with
        | error e2 =>
          rw [hr, afterRemote_error] at h
          rw [afterRemote_error]
        | ok i =>
          rw [hr, afterRemote_ok] at h
          obtain ⟨s, hs⟩ := finishLookup_result_ok c p i true true
          rw [hs] at h
          simp at h

theorem memHit_inv {env : Env} {c : LruCache} {q : String}
    (h : (find env c q).outcome = .memHit) :
    ∃ link, (c.get q).fst = some link ∧
      find env c q = ⟨.ok link, (c.get q).snd, .memHit, false, false, false⟩ := by
  cases hfst : (c.get q).fst with
  | some link => exact ⟨link, rfl, find_of_get_some hfst⟩
  | none =>
    exfalso
    rw [find_of_miss hfst] at h
    cases hp : env.parse q with
    | error e =>
      rw [hp, afterParse_error] at h
      simp at h
    | ok p =>
      rw [hp, afterParse_ok] at h
      cases hf : index_from_file (env.disk p.crateName) with
      | ok i =>
        rw [hf, afterFile_ok] at h
        exact finishLookup_outcome_ne_memHit c p i true false h
      | error le =>
        rw [hf, afterFile_error] at h
        cases hr : index_from_remote env p with
        | error e2 =>
          rw [hr, afterRemote_error] at h
          simp at h
        | ok i =>
          rw [hr, afterRemote_ok] at h
          exact finishLookup_outcome_ne_memHit c p i true true h

theorem linkFound_inv {env : Env} {c : LruCache} {q : String}
    (h : (find env c q).outcome = .linkFound) :
    ∃ p link, (c.get q).fst = none ∧ env.parse q = .ok p ∧
      (find env c q).result = .ok link ∧
      (find env c q).cache = c.insert p.raw link := by
  cases hfst : (c.get q).fst with
  | some link =>
    rw [find_of_get_some hfst] at h
    simp at h
  | none =>
    rw [find_of_miss hfst] at h ⊢
    cases hp : env.parse q with
    | error e =>
      rw [hp, afterParse_error] at h
      simp at h
    | ok p =>
      rw [hp, afterParse_ok] at h
      rw [afterParse_ok]
      cases hf : index_from_file (env.disk p.crateName) with
      | ok i =>
        rw [hf, afterFile_ok] at h
        rw [afterFile_ok]
        cases hl : i.findLink p with
        | some link =>
          rw [finishLookup_eq_found c true false hl]
          exact ⟨p, link, rfl, rfl, rfl, rfl⟩
        | none =>
          rw [finishLookup_eq_notFound c true false hl] at h
          simp at h
      | error le =>
        rw [hf, afterFile_error] at h
        rw [afterFile_error]
        cases hr : index_from_remote env p with
        | error e2 =>
          rw [hr, afterRemote_error] at h
          simp at h
        | ok i =>
          rw [hr, afterRemote_ok] at h
          rw [afterRemote_ok]
          cases hl : i.findLink p with
          | some link =>
            rw [finishLookup_eq_found c true true hl]
            exact ⟨p, link, rfl, rfl, rfl, rfl⟩
          | none =>
            rw [finishLookup_eq_notFound c true true hl] at h
            simp at h

theorem find_notFound {env : Env} {c : LruCache} {q : String} {p : SimplePath} {i : Index}
    (hmiss : (c.get q).fst = none) (hp : env.parse q = .ok p)
    (hobt : obtainIndex env p = .ok i) (hl : i.findLink p = none) :
    (find env c q).result = .ok ("Item `" ++ p.raw ++ "` doesn't exist") ∧
    (find env c q).cache = c := by
  rw [find_of_miss hmiss, hp, afterParse_ok]
  unfold obtainIndex at hobt
  cases hf : index_from_file (env.disk p.crateName) with
  | ok i2 =>
    rw [hf] at hobt
    simp only [Except.ok.injEq] at hobt
    subst hobt
    rw [afterFile_ok, finishLookup_eq_notFound c true false hl]
    exact ⟨rfl, rfl⟩
  | error le =>
    rw [hf] at hobt
    simp only at hobt
    rw [afterFile_error, hobt, afterRemote_ok, finishLookup_eq_notFound c true true hl]
    exact ⟨rfl, rfl⟩

theorem get_fst_none_of_allne {c : LruCache} {k2 : String}
    (h : ∀ x ∈ c.entries, ¬ (x.fst == k2) = true) : (c.get k2).fst = none := by
  rw [get_eq_miss (List.find?_eq_none.mpr h)]

theorem get_fst_isSome_of_mem {c : LruCache} {k2 : String}
    (h : ∃ x, x ∈ c.entries ∧ (x.fst == k2) = true) :
    ((c.get k2).fst).isSome = true := by
  have hs : (c.entries.find? (fun e => e.fst == k2)).isSome := List.find?_isSome.mpr h
  cases hfind : c.entries.find? (fun e => e.fst == k2) with
  | none => rw [hfind] at hs; simp at hs
  | some e => rw [get_eq_hit hfind]; rfl

theorem afterRemote_remoteInvoked (c : LruCache) (p : SimplePath) (r : Except String Index) :
    (afterRemote c p r).remoteInvoked = true := by
  cases r with
  | error e => rw [afterRemote_error]
  | ok i => rw [afterRemote_ok]; exact finishLookup_remoteInvoked c p i true true

theorem find_after_file_error {env : Env} {c : LruCache} {q : String}
    {p : SimplePath} {le : LoadError}
    (hmiss : (c.get q).fst = none) (hparse : env.parse q = .ok p)
    (hfile : index_from_file (env.disk p.crateName) = .error le) :
    find env c q = afterRemote c p (index_from_remote env p) := by
  rw [find_of_miss hmiss, hparse, afterParse_ok, hfile, afterFile_error]

/-! Concrete fixtures used by witnesses and counterexamples. -/

def resultUrl : String := "https://docs.rs/anyhow/latest/anyhow/type.Result.html"

def anyhowResult : SimplePath := ⟨"anyhow::Result", "anyhow"⟩

def anyhowNonexistent : SimplePath := ⟨"anyhow::Nonexistent", "anyhow"⟩

def anyhowIndex : Index :=
  ⟨fun p => if p.raw = "anyhow::Result" then some resultUrl else none⟩

def parse0 : String → Except String SimplePath := fun s =>
  if s = "anyhow::Result" then .ok anyhowResult
  else if s = "anyhow::Nonexistent" then .ok anyhowNonexistent
  else .error "not a fully qualified item path"

def baseEnv : Env :=
  { parse := parse0
    disk := fun _ => none
    startUrl := fun c => "https://docs.rs/" ++ c
    download := fun _ => .ok "payload"
    findIndex := fun _ => .ok "https://docs.rs/index.json"
    transformIndex := fun _ => .ok anyhowIndex
    saveOk := true }

def failEnv : Env := { baseEnv with download := fun _ => .error "connection refused" }

def noSaveEnv : Env := { baseEnv with saveOk := false }

def corruptEnv : Env := { baseEnv with disk := fun _ => some ⟨.ok 0, none⟩ }

def staleEnv : Env :=
  { baseEnv with disk := fun _ => some ⟨.ok (staleNanos + 1), some anyhowIndex⟩ }

def futureEnv : Env :=
  { baseEnv with disk := fun _ => some ⟨.error (), some anyhowIndex⟩ }

theorem parse0_raw : ∀ s p, baseEnv.parse s = .ok p → p.raw = s := by
  intro s p h
  have h2 : parse0 s = .ok p := h
  unfold parse0 at h2
  split at h2
  · rename_i hs
    injection h2 with h3
    subst h3
    subst hs
    rfl
  · split at h2
    · rename_i hs
      injection h2 with h3
      subst h3
      subst hs
      rfl
    · simp at h2

/-! Claim theorems. -/

/-- C4: for every query string that is not already in the memory cache and
whose path parse fails, `find` returns `Ok` with a message describing why the
path is invalid, never `Err`. -/
theorem C4_invalid_path_is_ok {env : Env} {c : LruCache} {q e : String}
    (hmiss : (c.get q).fst = none) (hparse : env.parse q = .error e) :
    (find env c q).result = .ok ("The path `" ++ q ++ "` is invalid: " ++ e) := by
  rw [find_of_miss hmiss, hparse, afterParse_error]

/-- Witness for C4 at the concrete query "" in the empty link cache. -/
theorem C4_invalid_path_is_ok_witness :
    (find baseEnv LINK_CACHE "").result =
      .ok ("The path `" ++ "" ++ "` is invalid: " ++ "not a fully qualified item path") :=
  C4_invalid_path_is_ok rfl rfl

/-- C9: whenever `find` returns an error, the memory link cache is left
exactly as it was before the call (the only insertion happens after a
successful link lookup, which always returns `Ok`). -/
theorem C9_error_leaves_cache_unchanged (env : Env) (c : LruCache) (q err : String)
    (h : (find env c q).result = .error err) : (find env c q).cache = c :=
  find_error_cache h

/-- Witness for C9: a failing remote download makes `find` return an error and
the cache is unchanged. -/
theorem C9_error_leaves_cache_unchanged_witness :
    (find failEnv LINK_CACHE "anyhow::Result").cache = LINK_CACHE :=
  C9_error_leaves_cache_unchanged failEnv LINK_CACHE "anyhow::Result" "connection refused"
    (by decide)

/-- C2: a present, well-formed disk index file whose modification time is
older than the 3-day freshness threshold behaves as a cache miss:
`index_from_file` fails with the outdated error instead of returning the
stale content, and `find` proceeds to the remote fetch. -/
theorem C2_stale_file_is_cache_miss (env : Env) (c : LruCache) (q : String)
    (p : SimplePath) (f : DiskFile) (e : Nat) (i : Index)
    (hmiss : (c.get q).fst = none) (hparse : env.parse q = .ok p)
    (hdisk : env.disk p.crateName = some f) (helapsed : f.elapsed = .ok e)
    (_hcontent : f.content = some i) (hstale : staleNanos < e) :
    index_from_file (env.disk p.crateName) = .error .outdated ∧
    (find env c q).remoteInvoked = true := by
  have hfile : index_from_file (env.disk p.crateName) = .error .outdated := by
    rw [hdisk]
    simp [index_from_file, helapsed, hstale]
  refine ⟨hfile, ?_⟩
  rw [find_after_file_error hmiss hparse hfile]
  exact afterRemote_remoteInvoked c p _

/-- Witness for C2 with a file exactly one nanosecond past the threshold. -/
theorem C2_stale_file_is_cache_miss_witness :
    index_from_file (staleEnv.disk "anyhow") = .error .outdated ∧
    (find staleEnv LINK_CACHE "anyhow::Result").remoteInvoked = true :=
  C2_stale_file_is_cache_miss staleEnv LINK_CACHE "anyhow::Result" anyhowResult
    ⟨.ok (staleNanos + 1), some anyhowIndex⟩ (staleNanos + 1) anyhowIndex
    rfl rfl rfl rfl rfl (Nat.lt_succ_self staleNanos)

/-- C10: a disk index file whose modification time lies in the future (so the
elapsed-time computation fails) is treated as a cache miss even though the
file is present, well-formed and not older than the threshold: `find`
performs the remote fetch. -/
theorem C10_future_mtime_is_cache_miss (env : Env) (c : LruCache) (q : String)
    (p : SimplePath) (f : DiskFile) (i : Index)
    (hmiss : (c.get q).fst = none) (hparse : env.parse q = .ok p)
    (hdisk : env.disk p.crateName = some f)
    (helapsed : f.elapsed = .error ()) (_hcontent : f.content = some i) :
    index_from_file (env.disk p.crateName) = .error .modifiedTime ∧
    (find env c q).remoteInvoked = true := by
  have hfile : index_from_file (env.disk p.crateName) = .error .modifiedTime := by
    rw [hdisk]
    simp [index_from_file, helapsed]
  refine ⟨hfile, ?_⟩
  rw [find_after_file_error hmiss hparse hfile]
  exact afterRemote_remoteInvoked c p _

/-- Witness for C10 with a concrete future-dated file. -/
theorem C10_future_mtime_is_cache_miss_witness :
    index_from_file (futureEnv.disk "anyhow") = .error .modifiedTime ∧
    (find futureEnv LINK_CACHE "anyhow::Result").remoteInvoked = true :=
  C10_future_mtime_is_cache_miss futureEnv LINK_CACHE "anyhow::Result" anyhowResult
    ⟨.error (), some anyhowIndex⟩ anyhowIndex rfl rfl rfl rfl rfl

/-- C3: when `find` reaches the remote-fetch tier and the fetch pipeline
succeeds, the result is derived from the freshly fetched index whether or not
saving it to the disk store succeeds; a save failure never makes `find`
return an error. -/
theorem C3_save_failure_isolated (env : Env) (c : LruCache) (q : String)
    (p : SimplePath) (le : LoadError) (i : Index)
    (hmiss : (c.get q).fst = none) (hparse : env.parse q = .ok p)
    (hfile : index_from_file (env.disk p.crateName) = .error le)
    (hremote : index_from_remote env p = .ok i) :
    find {env with saveOk := false} c q = find {env with saveOk := true} c q ∧
    (find env c q).result =
      (match i.findLink p with
        | some link => .ok link
        | none => .ok ("Item `" ++ p.raw ++ "` doesn't exist")) := by
  constructor
  · rw [find_save env false c q, find_save env true c q]
  · rw [find_after_file_error hmiss hparse hfile, hremote, afterRemote_ok]
    cases hl : i.findLink p with
    | some link => rw [finishLookup_eq_found c true true hl]
    | none => rw [finishLookup_eq_notFound c true true hl]

/-- Witness for C3: with saving disabled, the remote-fetched index still
yields the resolved url. -/
theorem C3_save_failure_isolated_witness :
    (find noSaveEnv LINK_CACHE "anyhow::Result").result = .ok resultUrl := by
  have h := C3_save_failure_isolated noSaveEnv LINK_CACHE "anyhow::Result"
    anyhowResult .metadata anyhowIndex rfl rfl rfl rfl
  rw [h.2]
  rfl

/-- Counterexample to C1 as stated: for a disk index file that exists, is
fresh (elapsed 0) but whose content fails to deserialize, `find` does not
propagate an error — it silently falls back to the remote fetch and returns
`Ok` with the url derived from the remote index. -/
theorem C1_counterexample :
    index_from_file (corruptEnv.disk "anyhow") = .error .deserialize ∧
    (find corruptEnv LINK_CACHE "anyhow::Result").remoteInvoked = true ∧
    (find corruptEnv LINK_CACHE "anyhow::Result").result = .ok resultUrl := by
  refine ⟨rfl, by decide, by decide⟩

/-- C1 (amended): for a disk index file that is fresh but fails to
deserialize, `index_from_file` fails with the deserialization error and `find`
treats this exactly like any other disk-cache miss: it falls back to the
remote fetch; the fetched index determines the `Ok` result, and the only
error `find` can propagate is one coming from the remote fetch itself. -/
theorem C1_fresh_corrupt_file_falls_back (env : Env) (c : LruCache) (q : String)
    (p : SimplePath) (f : DiskFile) (e : Nat)
    (hmiss : (c.get q).fst = none) (hparse : env.parse q = .ok p)
    (hdisk : env.disk p.crateName = some f) (helapsed : f.elapsed = .ok e)
    (hfresh : ¬ staleNanos < e) (hcorrupt : f.content = none) :
    index_from_file (env.disk p.crateName) = .error .deserialize ∧
    (find env c q).remoteInvoked = true ∧
    (∀ i, index_from_remote env p = .ok i → ∃ s, (find env c q).result = .ok s) ∧
    (∀ err, index_from_remote env p = .error err → (find env c q).result = .error err) := by
  have hfile : index_from_file (env.disk p.crateName) = .error .deserialize := by
    rw [hdisk]
    simp [index_from_file, helapsed, hfresh, hcorrupt]
  refine ⟨hfile, ?_, ?_, ?_⟩
  · rw [find_after_file_error hmiss hparse hfile]
    exact afterRemote_remoteInvoked c p _
  · intro i hi
    rw [find_after_file_error hmiss hparse hfile, hi, afterRemote_ok]
    exact finishLookup_result_ok c p i true true
  · intro err he
    rw [find_after_file_error hmiss hparse hfile, he, afterRemote_error]

/-- Witness for the amended C1 at the concrete corrupt-file environment. -/
theorem C1_fresh_corrupt_file_falls_back_witness :
    (find corruptEnv LINK_CACHE "anyhow::Result").remoteInvoked = true ∧
    ∃ s, (find corruptEnv LINK_CACHE "anyhow::Result").result = .ok s := by
  have h := C1_fresh_corrupt_file_falls_back corruptEnv LINK_CACHE "anyhow::Result"
    anyhowResult ⟨.ok 0, none⟩ 0 rfl rfl rfl rfl (by decide) rfl
  exact ⟨h.2.1, h.2.2.1 anyhowIndex rfl⟩

/-- C8: for a successfully parsed path whose index lookup yields no url,
`find` returns `Ok` with the doesn't-exist message for the path's display
form and leaves the memory link cache exactly unchanged. -/
theorem C8_notfound_message_cache_unchanged (env : Env) (c : LruCache) (q : String)
    (p : SimplePath) (i : Index)
    (hmiss : (c.get q).fst = none) (hparse : env.parse q = .ok p)
    (hobt : obtainIndex env p = .ok i) (hl : i.findLink p = none) :
    (find env c q).result = .ok ("Item `" ++ p.raw ++ "` doesn't exist") ∧
    (find env c q).cache = c :=
  find_notFound hmiss hparse hobt hl

/-- Witness for C8 at the concrete query "anyhow::Nonexistent". -/
theorem C8_notfound_message_cache_unchanged_witness :
    (find baseEnv LINK_CACHE "anyhow::Nonexistent").result =
      .ok ("Item `" ++ "anyhow::Nonexistent" ++ "` doesn't exist") ∧
    (find baseEnv LINK_CACHE "anyhow::Nonexistent").cache = LINK_CACHE :=
  C8_notfound_message_cache_unchanged baseEnv LINK_CACHE "anyhow::Nonexistent"
    anyhowNonexistent anyhowIndex rfl rfl rfl rfl

/-- C7: inserting the same (key, value) pair into the link cache twice gives
the very same cache state as inserting it once — in particular the size is
unchanged — and `get` on the key returns that value. -/
theorem C7_insert_same_pair_idempotent (c : LruCache) (k v : String) :
    ((c.insert k v).insert k v).entries.length = (c.insert k v).entries.length ∧
    (((c.insert k v).insert k v).get k).fst = some v ∧
    (c.insert k v).insert k v = c.insert k v := by
  refine ⟨?_, ?_, insert_insert c k v⟩
  · rw [insert_insert]
  · rw [insert_insert]
    exact get_fst_insert_self c k v

/-- Counterexample to C5 as stated: for the raw query "" (an invalid path)
the first call caches nothing, so the second identical call does not hit the
memory cache at the first check — it invokes the path parser again. -/
theorem C5_counterexample :
    (find baseEnv (find baseEnv LINK_CACHE "").cache "").parserInvoked = true ∧
    (find baseEnv (find baseEnv LINK_CACHE "").cache "").outcome ≠ Outcome.memHit := by
  refine ⟨by decide, by decide⟩

/-- C5 (amended): if the first `find` call for a raw query returned a link —
either as a memory-cache hit or after a successful index lookup — then the
second call with the identical raw query string hits the memory link cache at
the very first check: same result, and neither the path parser, nor the disk
store, nor the remote fetcher is invoked. (Queries whose first call returns
an invalid-path or not-found message, or an error, cache nothing, so their
second call parses again.) Uses the fact that the parser returns paths whose
canonical string `into_inner` is the parsed input itself. -/
theorem C5_second_identical_call_hits_memory (env : Env) (c : LruCache) (q : String)
    (hraw : ∀ s p, env.parse s = .ok p → p.raw = s)
    (h : (find env c q).outcome = .memHit ∨ (find env c q).outcome = .linkFound) :
    (find env (find env c q).cache q).outcome = .memHit ∧
    (find env (find env c q).cache q).result = (find env c q).result ∧
    (find env (find env c q).cache q).parserInvoked = false ∧
    (find env (find env c q).cache q).diskInvoked = false ∧
    (find env (find env c q).cache q).remoteInvoked = false := by
  cases h with
  | inl hmem =>
    obtain ⟨link, hfst, heq⟩ := memHit_inv hmem
    have hsecond : ((find env c q).cache.get q).fst = some link := by
      rw [heq]
      exact get_fst_again hfst
    rw [find_of_get_some hsecond, heq]
    exact ⟨rfl, rfl, rfl, rfl, rfl⟩
  | inr hlink =>
    obtain ⟨p, link, _hmiss, hparse, hres, hcache⟩ := linkFound_inv hlink
    have hranq : p.raw = q := hraw q p hparse
    have hsecond : ((find env c q).cache.get q).fst = some link := by
      rw [hcache, ← hranq]
      exact get_fst_insert_self c p.raw link
    rw [find_of_get_some hsecond, hres]
    exact ⟨rfl, rfl, rfl, rfl, rfl⟩

/-- Witness for the amended C5: a cold successful lookup followed by the
identical query is answered from the memory cache. -/
theorem C5_second_identical_call_hits_memory_witness :
    (find baseEnv (find baseEnv LINK_CACHE "anyhow::Result").cache "anyhow::Result").outcome =
      Outcome.memHit ∧
    (find baseEnv (find baseEnv LINK_CACHE "anyhow::Result").cache "anyhow::Result").result =
      (find baseEnv LINK_CACHE "anyhow::Result").result := by
  have h := C5_second_identical_call_hits_memory baseEnv LINK_CACHE "anyhow::Result"
    parse0_raw (Or.inr (by decide))
  exact ⟨h.1, h.2.1⟩

set_option maxRecDepth 100000

/-- C6: the link cache never exceeds its fixed capacity of 500 entries
(both `insert` and `get` preserve the bound), and inserting a new, 501st
distinct key into a full cache evicts exactly the least-recently-touched
entry — the front of the recency order, since every `get` and `insert` moves
the touched key to the back: afterwards `get` on the evicted key returns
none, while the new key and every other previously present key remain
retrievable. -/
theorem C6_capacity_bound_and_lru_eviction (c : LruCache) (k v k0 : String)
    (hcap : c.capacity = 500)
    (hnodup : (c.entries.map Prod.fst).Nodup)
    (hlen : c.entries.length ≤ 500) :
    (c.insert k v).entries.length ≤ 500 ∧
    ((c.get k).snd).entries.length ≤ 500 ∧
    (c.entries.length = 500 →
      c.entries.find? (fun e => e.fst == k) = none →
      (c.entries.map Prod.fst).head? = some k0 →
      ((c.insert k v).get k).fst = some v ∧
      ((c.insert k v).get k0).fst = none ∧
      ∀ k2, k2 ∈ (c.entries.map Prod.fst).tail →
        (((c.insert k v).get k2).fst).isSome = true) := by
  have hcap1 : 1 ≤ c.capacity := by omega
  have hlen' : c.entries.length ≤ c.capacity := by omega
  refine ⟨?_, ?_, ?_⟩
  · have hb := insert_length_le k v hcap1 hlen'
    omega
  · have hb := get_snd_length_le k hlen'
    omega
  · intro hfull hnew hhead
    have hins : (c.insert k v).entries = c.entries.tail ++ [(k, v)] :=
      insert_full_entries (by omega) hnew
    cases hent : c.entries with
    | nil =>
      rw [hent] at hfull
      simp at hfull
    | cons e0 rest =>
      rw [hent] at hhead hnodup hnew hins
      simp only [List.map_cons, List.head?_cons, Option.some.injEq] at hhead
      simp only [List.map_cons, List.nodup_cons] at hnodup
      simp only [List.tail_cons] at hins
      refine ⟨get_fst_insert_self c k v, ?_, ?_⟩
      · apply get_fst_none_of_allne
        rw [hins]
        intro x hx
        rcases List.mem_append.mp hx with hxr | hxk
        · intro hbeq
          have hxk0 : x.fst = k0 := by simpa using hbeq
          apply hnodup.1
          rw [hhead, ← hxk0]
          exact List.mem_map_of_mem _ hxr
        · have hxx : x = (k, v) := by simpa using hxk
          subst hxx
          have hne := List.find?_eq_none.mp hnew e0 (List.mem_cons_self e0 rest)
          intro hbeq
          have hkk0 : k = k0 := by simpa using hbeq
          exact hne (by simp [hhead, hkk0])
      · intro k2 hk2
        apply get_fst_isSome_of_mem
        rw [hins]
        simp only [List.map_cons, List.tail_cons] at hk2
        obtain ⟨x, hxr, hxk2⟩ := List.mem_map.mp hk2
        exact ⟨x, List.mem_append_left _ hxr, by simp [hxk2]⟩

/-- Concrete full cache of 500 entries with pairwise distinct one-character
keys, used to witness the eviction theorem. -/
def testEntries : List (String × String) :=
  (List.range 500).map (fun i => (String.mk [Char.ofNat (i + 32)], "u"))

def fullCache : LruCache := ⟨500, testEntries⟩

theorem charOfNat_toNat {n : Nat} (h : n.isValidChar) : (Char.ofNat n).toNat = n := by
  rw [Char.ofNat, dif_pos h]
  rfl

theorem testEntries_keys_nodup : (testEntries.map Prod.fst).Nodup := by
  unfold testEntries
  rw [List.map_map]
  apply List.Nodup.map_on ?_ (List.nodup_range 500)
  intro x hx y hy hxy
  have hx5 : x < 500 := List.mem_range.mp hx
  have hy5 : y < 500 := List.mem_range.mp hy
  have hchar : Char.ofNat (x + 32) = Char.ofNat (y + 32) := by
    have hdata := congrArg String.data hxy
    simpa using hdata
  have hvx : (x + 32).isValidChar := Or.inl (by omega)
  have hvy : (y + 32).isValidChar := Or.inl (by omega)
  have htn := congrArg Char.toNat hchar
  rw [charOfNat_toNat hvx, charOfNat_toNat hvy] at htn
  omega

/-- Witness for C6 on the concrete full cache: inserting the fresh key "new"
evicts exactly the least-recently-used key " " while keeping the bound. -/
theorem C6_capacity_bound_and_lru_eviction_witness :
    ((fullCache.insert "new" "u").get (String.mk [Char.ofNat 32])).fst = none ∧
    (fullCache.insert "new" "u").entries.length ≤ 500 ∧
    ((fullCache.insert "new" "u").get "new").fst = some "u" := by
  have h := C6_capacity_bound_and_lru_eviction fullCache "new" "u"
    (String.mk [Char.ofNat 32]) rfl testEntries_keys_nodup
    (by simp [fullCache, testEntries])
  have h3 := h.2.2 (by simp [fullCache, testEntries]) (by decide) rfl
  exact ⟨h3.2.1, h.1, h3.1⟩
